import Mathlib

/-!
Shallow embedding of the coffee-stock ledger application (src/app.py).

The program keeps two SQLite tables, `beans` and `transactions`, and mutates
them through three UI branches: inbound receipt (進豆入庫), roast consumption
(烘豆取出) and stocktake correction (盤點修正).  Each branch reads the bean by
name, computes the new stock, issues an UPDATE/INSERT pair on the two tables
and commits once at the end.  We model the database state as a `Store`, the
primitive SQL statements as `Write`s, and each branch as a function producing
the list of writes it executes plus the values the UI displays.  Weights are
modelled as rationals.
-/

namespace CoffeeStock

/-- Action kinds recorded in the `transactions.action_type` column. -/
inductive ActionType where
  | inbound
  | roast
  | stocktake
  deriving DecidableEq, Repr

/-- A row of the `beans` table: id, unique name, origin, process, current
stock weight and last-update timestamp. -/
structure Bean where
  id : Nat
  name : String
  origin : String
  process : String
  stockWeight : ℚ
  updatedAt : Nat
  deriving DecidableEq, Repr

/-- A row of the `transactions` table: id, the bean it references, the action
kind, the signed stock delta, a note and the creation timestamp. -/
structure Txn where
  id : Nat
  beanId : Nat
  actionType : ActionType
  amountChange : ℚ
  note : String
  createdAt : Nat
  deriving DecidableEq, Repr

/-- The database state: both tables plus the next AUTOINCREMENT ids. -/
structure Store where
  beans : List Bean
  txns : List Txn
  nextBeanId : Nat
  nextTxnId : Nat
  deriving DecidableEq, Repr

/-- The freshly initialised database: both tables empty, AUTOINCREMENT
starting at 1. -/
def Store.empty : Store := ⟨[], [], 1, 1⟩

/-- Failure modes of the mutating operations: blank required name
(the `if not name: st.error(...)` check) and missing bean on
consume/correct (`cursor.fetchone()` yields no row). -/
inductive Err where
  | validation
  | notFound
  deriving DecidableEq, Repr

/-- The bean lookup `SELECT id, stock_weight FROM beans WHERE name=?`
followed by `fetchone()`: the first row whose name matches. -/
def lookupBean (s : Store) (name : String) : Option Bean :=
  s.beans.find? fun b => b.name = name

/-- Current recorded stock of a bean, when it exists. -/
def getStock (s : Store) (name : String) : Option ℚ :=
  (lookupBean s name).map Bean.stockWeight

/-- The primitive SQL statements the three branches execute inside one
storage transaction. -/
inductive Write where
  | updateBeanStock (bid : Nat) (newStock : ℚ) (now : Nat)
  | updateBeanFull (bid : Nat) (newStock : ℚ) (origin proc : String) (now : Nat)
  | insertBean (name origin proc : String) (weight : ℚ) (now : Nat)
  | insertTxn (a : ActionType) (bid : Nat) (amt : ℚ) (note : String) (now : Nat)
  deriving DecidableEq, Repr

/-- Effect of one SQL statement on the database state.  `updateBeanStock` is
`UPDATE beans SET stock_weight=?, updated_at=... WHERE id=?`;
`updateBeanFull` additionally overwrites origin and process (the inbound
branch); the two inserts append a row and advance the AUTOINCREMENT id. -/
def applyWrite (s : Store) : Write → Store
  | .updateBeanStock bid w now =>
      { s with beans := s.beans.map fun b =>
          if b.id = bid then { b with stockWeight := w, updatedAt := now } else b }
  | .updateBeanFull bid w o p now =>
      { s with beans := s.beans.map fun b =>
          if b.id = bid then
            { b with stockWeight := w, origin := o, process := p, updatedAt := now }
          else b }
  | .insertBean n o p w now =>
      { s with beans := s.beans ++ [⟨s.nextBeanId, n, o, p, w, now⟩],
               nextBeanId := s.nextBeanId + 1 }
  | .insertTxn a bid amt note now =>
      { s with txns := s.txns ++ [⟨s.nextTxnId, bid, a, amt, note, now⟩],
               nextTxnId := s.nextTxnId + 1 }

/-- Apply a list of SQL statements in order. -/
def applyWrites (s : Store) (ws : List Write) : Store := ws.foldl applyWrite s

/-- The process-wide cached SQLite connection (`st.cache_resource`,
`check_same_thread=False`): `durable` is the committed on-disk state,
`pending` is what reads on this same connection observe — the durable state
plus any statements of a still-open implicit transaction.  The two coincide
while no transaction is open. -/
structure Conn where
  durable : Store
  pending : Store
  deriving DecidableEq, Repr

/-- A connection with no open transaction. -/
def Conn.clean (s : Store) : Conn := ⟨s, s⟩

/-- Run one branch's write list on the connection, with an optional injected
storage fault making the statement at position `some k` raise.  The source
wraps its `cursor.execute` calls in no try/except and never issues a
rollback, so on a fault the statements already executed stay pending on the
shared connection (sqlite3's implicit deferred transaction remains open) and
the branch's final `conn.commit()` is never reached; a fault-free run
executes every statement and its `conn.commit()` makes the whole pending
state durable — including any writes orphaned by an earlier fault. -/
def runBranch (c : Conn) (ws : List Write) (fault : Option Nat) : Conn :=
  match fault with
  | some k =>
      if k < ws.length then ⟨c.durable, applyWrites c.pending (ws.take k)⟩
      else ⟨applyWrites c.pending ws, applyWrites c.pending ws⟩
  | none => ⟨applyWrites c.pending ws, applyWrites c.pending ws⟩

/-- The inbound branch (進豆入庫, app.py lines 82-105) as the write list it
executes plus the new stock it reports.  Blank names are rejected before any
write; an existing bean gets `stock_weight += weight` together with an
origin/process overwrite and an INBOUND transaction; a new bean is inserted
with `stock_weight = weight` and an INBOUND transaction referencing
`cursor.lastrowid`. -/
def receiveWrites (s : Store) (name origin proc : String) (weight : ℚ) (now : Nat) :
    Except Err (List Write × ℚ) :=
  if name = "" then .error .validation
  else
    match lookupBean s name with
    | some b =>
        let newStock := b.stockWeight + weight
        .ok ([.updateBeanFull b.id newStock origin proc now,
              .insertTxn .inbound b.id weight "進豆入庫" now], newStock)
    | none =>
        .ok ([.insertBean name origin proc weight now,
              .insertTxn .inbound s.nextBeanId weight "新豆建檔" now], weight)

/-- The inbound branch, with its writes committed: the resulting store and
the new stock shown in the success message. -/
def receive (s : Store) (name origin proc : String) (weight : ℚ) (now : Nat) :
    Except Err (Store × ℚ) :=
  (receiveWrites s name origin proc weight now).map fun pr => (applyWrites s pr.1, pr.2)

/-- The roast branch (烘豆取出, app.py lines 122-136) as its write list plus
the new stock and the underflow-warning flag (`if new_stock < 0:
st.warning(...)`).  The lookup failing means `fetchone()` produced no row,
which aborts the branch before any write. -/
def consumeWrites (s : Store) (name : String) (weight : ℚ) (now : Nat) :
    Except Err (List Write × ℚ × Bool) :=
  match lookupBean s name with
  | none => .error .notFound
  | some b =>
      let newStock := b.stockWeight - weight
      .ok ([.updateBeanStock b.id newStock now,
            .insertTxn .roast b.id (-weight) "烘豆消耗" now],
           newStock, decide (newStock < 0))

/-- The roast branch, with its writes committed. -/
def consume (s : Store) (name : String) (weight : ℚ) (now : Nat) :
    Except Err (Store × ℚ × Bool) :=
  (consumeWrites s name weight now).map fun pr => (applyWrites s pr.1, pr.2)

/-- The note the stocktake branch writes:
`f'盤點修正 ({current_stock}->{actual_weight})'`. -/
def stocktakeNote (oldStock newStock : ℚ) : String :=
  "盤點修正 (" ++ toString oldStock ++ "->" ++ toString newStock ++ ")"

/-- The stocktake branch (盤點修正, app.py lines 156-165) as its write list
plus the applied diff.  `diff == 0` performs no write at all; otherwise the
bean's stock is set to `actual_weight` and a STOCKTAKE transaction carrying
`diff` is appended. -/
def correctWrites (s : Store) (name : String) (actualWeight : ℚ) (now : Nat) :
    Except Err (List Write × ℚ) :=
  match lookupBean s name with
  | none => .error .notFound
  | some b =>
      let diff := actualWeight - b.stockWeight
      if diff = 0 then .ok ([], diff)
      else
        .ok ([.updateBeanStock b.id actualWeight now,
              .insertTxn .stocktake b.id diff (stocktakeNote b.stockWeight actualWeight) now],
             diff)

/-- The stocktake branch, with its writes committed. -/
def correct (s : Store) (name : String) (actualWeight : ℚ) (now : Nat) :
    Except Err (Store × ℚ) :=
  (correctWrites s name actualWeight now).map fun pr => (applyWrites s pr.1, pr.2)

/-- Sum of `amount_change` over the transactions referencing a bean id. -/
def sumFor (txns : List Txn) (bid : Nat) : ℚ :=
  ((txns.filter fun t => t.beanId = bid).map Txn.amountChange).sum

/-- Sum of `amount_change` over a store's transactions for a bean id. -/
def beanTxnSum (s : Store) (bid : Nat) : ℚ := sumFor s.txns bid

/-- Store states reachable from the freshly initialised database by the three
mutating branches.  The weight inputs come from `st.number_input` widgets
with `min_value=0.0`, hence the nonnegativity side conditions. -/
inductive Reachable : Store → Prop where
  | empty : Reachable Store.empty
  | receiveStep (s : Store) (n o p : String) (w : ℚ) (t : Nat) (s' : Store) (r : ℚ) :
      Reachable s → 0 ≤ w → receive s n o p w t = .ok (s', r) → Reachable s'
  | consumeStep (s : Store) (n : String) (w : ℚ) (t : Nat) (s' : Store) (r : ℚ) (u : Bool) :
      Reachable s → 0 ≤ w → consume s n w t = .ok (s', r, u) → Reachable s'
  | correctStep (s : Store) (n : String) (a : ℚ) (t : Nat) (s' : Store) (d : ℚ) :
      Reachable s → 0 ≤ a → correct s n a t = .ok (s', d) → Reachable s'

/-- Structural well-formedness of a store: bean ids are below the next
AUTOINCREMENT id and distinct, transactions reference allocated bean ids,
and every bean's stock equals the sum of its transactions' deltas. -/
structure Wf (s : Store) : Prop where
  beanIdLt : ∀ b ∈ s.beans, b.id < s.nextBeanId
  txnBeanIdLt : ∀ t ∈ s.txns, t.beanId < s.nextBeanId
  idsNodup : (s.beans.map Bean.id).Nodup
  stockSum : ∀ b ∈ s.beans, b.stockWeight = beanTxnSum s b.id

/-! ### Operation equations -/

/-- A blank name is rejected by the inbound branch before any write. -/
theorem receive_blank (s : Store) (o p : String) (w : ℚ) (t : Nat) :
    receive s "" o p w t = .error .validation := by
  simp [receive, Except.map, receiveWrites]

/-- Inbound receipt of a bean that is not yet in the store: one bean row and
one INBOUND transaction are appended. -/
theorem receive_absent (s : Store) (n o p : String) (w : ℚ) (t : Nat)
    (hn : n ≠ "") (hb : lookupBean s n = none) :
    receive s n o p w t = .ok
      ({ beans := s.beans ++ [⟨s.nextBeanId, n, o, p, w, t⟩],
         txns := s.txns ++ [⟨s.nextTxnId, s.nextBeanId, .inbound, w, "新豆建檔", t⟩],
         nextBeanId := s.nextBeanId + 1, nextTxnId := s.nextTxnId + 1 }, w) := by
  simp [receive, Except.map, receiveWrites, hn, hb, applyWrites, applyWrite]

/-- Inbound receipt of a bean already in the store: its stock increases by
the received weight, origin and process are overwritten, and one INBOUND
transaction is appended. -/
theorem receive_present (s : Store) (n o p : String) (w : ℚ) (t : Nat) (b : Bean)
    (hn : n ≠ "") (hb : lookupBean s n = some b) :
    receive s n o p w t = .ok
      ({ beans := s.beans.map fun c =>
           if c.id = b.id then
             { c with stockWeight := b.stockWeight + w, origin := o, process := p,
                      updatedAt := t }
           else c,
         txns := s.txns ++ [⟨s.nextTxnId, b.id, .inbound, w, "進豆入庫", t⟩],
         nextBeanId := s.nextBeanId, nextTxnId := s.nextTxnId + 1 },
       b.stockWeight + w) := by
  simp [receive, Except.map, receiveWrites, hn, hb, applyWrites, applyWrite]

/-- Roast consumption on an existing bean: stock decreases by the roast
weight (possibly below zero), one ROAST transaction with the negated weight
is appended, and the underflow flag reports whether the result is
negative. -/
theorem consume_present (s : Store) (n : String) (w : ℚ) (t : Nat) (b : Bean)
    (hb : lookupBean s n = some b) :
    consume s n w t = .ok
      ({ beans := s.beans.map fun c =>
           if c.id = b.id then { c with stockWeight := b.stockWeight - w, updatedAt := t }
           else c,
         txns := s.txns ++ [⟨s.nextTxnId, b.id, .roast, -w, "烘豆消耗", t⟩],
         nextBeanId := s.nextBeanId, nextTxnId := s.nextTxnId + 1 },
       b.stockWeight - w, decide (b.stockWeight - w < 0)) := by
  simp [consume, Except.map, consumeWrites, hb, applyWrites, applyWrite]

/-- Stocktake with no discrepancy: nothing is written and the store is
returned unchanged with diff 0. -/
theorem correct_noop (s : Store) (n : String) (a : ℚ) (t : Nat) (b : Bean)
    (hb : lookupBean s n = some b) (ha : a = b.stockWeight) :
    correct s n a t = .ok (s, 0) := by
  subst ha
  simp [correct, Except.map, correctWrites, hb, applyWrites]

/-- Stocktake with a discrepancy: the bean's stock is set to the observed
weight and one STOCKTAKE transaction carrying the diff is appended. -/
theorem correct_present (s : Store) (n : String) (a : ℚ) (t : Nat) (b : Bean)
    (hb : lookupBean s n = some b) (ha : a ≠ b.stockWeight) :
    correct s n a t = .ok
      ({ beans := s.beans.map fun c =>
           if c.id = b.id then { c with stockWeight := a, updatedAt := t } else c,
         txns := s.txns ++
           [⟨s.nextTxnId, b.id, .stocktake, a - b.stockWeight,
             stocktakeNote b.stockWeight a, t⟩],
         nextBeanId := s.nextBeanId, nextTxnId := s.nextTxnId + 1 },
       a - b.stockWeight) := by
  have hd : a - b.stockWeight ≠ 0 := sub_ne_zero_of_ne ha
  simp [correct, Except.map, correctWrites, hb, hd, applyWrites, applyWrite]

/-- Consumption of an unknown bean fails before any write. -/
theorem consume_absent (s : Store) (n : String) (w : ℚ) (t : Nat)
    (hb : lookupBean s n = none) :
    consume s n w t = .error .notFound := by
  simp [consume, Except.map, consumeWrites, hb]

/-- Stocktake of an unknown bean fails before any write. -/
theorem correct_absent (s : Store) (n : String) (a : ℚ) (t : Nat)
    (hb : lookupBean s n = none) :
    correct s n a t = .error .notFound := by
  simp [correct, Except.map, correctWrites, hb]

/-! ### Ledger-sum helpers -/

/-- Appending one transaction adds its delta to the sum of the bean it
references and leaves every other bean's sum unchanged. -/
theorem sumFor_append (l : List Txn) (t : Txn) (bid : Nat) :
    sumFor (l ++ [t]) bid
      = sumFor l bid + (if t.beanId = bid then t.amountChange else 0) := by
  by_cases h : t.beanId = bid <;> simp [sumFor, List.filter_append, h]

/-- A bean id referenced by no transaction has ledger sum zero. -/
theorem sumFor_eq_zero (l : List Txn) (bid : Nat) (h : ∀ t ∈ l, t.beanId ≠ bid) :
    sumFor l bid = 0 := by
  have hf : l.filter (fun t => t.beanId = bid) = [] := by
    rw [List.filter_eq_nil_iff]
    intro a ha
    simpa using h a ha
  simp [sumFor, hf]

/-- A successful bean lookup returns a member of the bean table. -/
theorem lookupBean_mem (s : Store) (n : String) (b : Bean)
    (h : lookupBean s n = some b) : b ∈ s.beans :=
  List.mem_of_find?_eq_some h

/-- A successful bean lookup returns a bean with the requested name. -/
theorem lookupBean_name (s : Store) (n : String) (b : Bean)
    (h : lookupBean s n = some b) : b.name = n := by
  simpa using List.find?_some h

/-- A failed bean lookup means no bean in the table has that name. -/
theorem lookupBean_none_iff (s : Store) (n : String) :
    lookupBean s n = none ↔ ∀ b ∈ s.beans, b.name ≠ n := by
  simp [lookupBean, List.find?_eq_none]

/-! ### Preservation of well-formedness -/

/-- The freshly initialised database is well-formed. -/
theorem wf_empty : Wf Store.empty := by
  refine ⟨?_, ?_, ?_, ?_⟩ <;> simp [Store.empty, beanTxnSum]

/-- Updating one bean row in place (stock and possibly metadata, never the
id) and appending one transaction referencing it with the delta the stock
moved by preserves well-formedness. -/
theorem wf_update_insert (s : Store) (b : Bean) (f : Bean → Bean)
    (a : ActionType) (d : ℚ) (note : String) (t : Nat)
    (hbmem : b ∈ s.beans)
    (hfid : ∀ c, (f c).id = c.id)
    (hfstock : ∀ c, c.id = b.id → (f c).stockWeight = b.stockWeight + d)
    (hfother : ∀ c, c.id ≠ b.id → f c = c)
    (hw : Wf s) :
    Wf { beans := s.beans.map f,
         txns := s.txns ++ [⟨s.nextTxnId, b.id, a, d, note, t⟩],
         nextBeanId := s.nextBeanId, nextTxnId := s.nextTxnId + 1 } := by
  have hbid : b.id < s.nextBeanId := hw.beanIdLt b hbmem
  have hids : (s.beans.map f).map Bean.id = s.beans.map Bean.id := by
    rw [List.map_map]
    exact List.map_congr_left fun c _ => hfid c
  refine ⟨?_, ?_, ?_, ?_⟩
  · intro c hc
    obtain ⟨c0, hc0, rfl⟩ := List.mem_map.mp hc
    simpa [hfid c0] using hw.beanIdLt c0 hc0
  · intro tx htx
    rcases List.mem_append.mp htx with h | h
    · exact hw.txnBeanIdLt tx h
    · simp at h
      subst h
      exact hbid
  · rw [hids]
    exact hw.idsNodup
  · intro c hc
    obtain ⟨c0, hc0, rfl⟩ := List.mem_map.mp hc
    by_cases hcid : c0.id = b.id
    · have hsum : sumFor s.txns b.id = b.stockWeight := (hw.stockSum b hbmem).symm
      simp only [beanTxnSum, hfid c0, hcid]
      rw [sumFor_append, hsum, hfstock c0 hcid]
      simp
    · have hne : (⟨s.nextTxnId, b.id, a, d, note, t⟩ : Txn).beanId ≠ c0.id := by
        simpa using fun h => hcid h.symm
      rw [hfother c0 hcid]
      simp only [beanTxnSum]
      rw [sumFor_append, if_neg hne, add_zero]
      exact hw.stockSum c0 hc0

/-- Inserting a fresh bean whose stock equals the delta of the single new
transaction referencing it preserves well-formedness. -/
theorem wf_insert_new (s : Store) (n o p : String) (w : ℚ) (t : Nat)
    (note : String) (hw : Wf s) :
    Wf { beans := s.beans ++ [⟨s.nextBeanId, n, o, p, w, t⟩],
         txns := s.txns ++ [⟨s.nextTxnId, s.nextBeanId, .inbound, w, note, t⟩],
         nextBeanId := s.nextBeanId + 1, nextTxnId := s.nextTxnId + 1 } := by
  refine ⟨?_, ?_, ?_, ?_⟩
  · intro c hc
    rcases List.mem_append.mp hc with h | h
    · exact Nat.lt_succ_of_lt (hw.beanIdLt c h)
    · simp at h
      subst h
      exact Nat.lt_succ_self _
  · intro tx htx
    rcases List.mem_append.mp htx with h | h
    · exact Nat.lt_succ_of_lt (hw.txnBeanIdLt tx h)
    · simp at h
      subst h
      exact Nat.lt_succ_self _
  · have hnotin : s.nextBeanId ∉ s.beans.map Bean.id := by
      intro hmem
      obtain ⟨c, hcmem, hcid⟩ := List.mem_map.mp hmem
      exact Nat.ne_of_lt (hw.beanIdLt c hcmem) hcid
    simp only [List.map_append, List.map_cons, List.map_nil]
    exact List.Nodup.append hw.idsNodup (List.nodup_singleton _)
      (by simpa [List.disjoint_singleton] using hnotin)
  · intro c hc
    have hzero : sumFor s.txns s.nextBeanId = 0 :=
      sumFor_eq_zero _ _ fun tx htx => Nat.ne_of_lt (hw.txnBeanIdLt tx htx)
    rcases List.mem_append.mp hc with h | h
    · have hne : (⟨s.nextTxnId, s.nextBeanId, .inbound, w, note, t⟩ : Txn).beanId ≠ c.id := by
        simpa using (Nat.ne_of_lt (hw.beanIdLt c h)).symm
      simp only [beanTxnSum]
      rw [sumFor_append, if_neg hne, add_zero]
      exact hw.stockSum c h
    · simp at h
      subst h
      simp only [beanTxnSum]
      rw [sumFor_append, if_pos rfl, hzero, zero_add]

/-- A successful inbound receipt preserves well-formedness. -/
theorem wf_receive (s : Store) (n o p : String) (w : ℚ) (t : Nat) (s' : Store) (r : ℚ)
    (hw : Wf s) (h : receive s n o p w t = .ok (s', r)) : Wf s' := by
  by_cases hn : n = ""
  · subst hn
    rw [receive_blank] at h
    cases h
  cases hb : lookupBean s n with
  | none =>
      rw [receive_absent s n o p w t hn hb] at h
      simp only [Except.ok.injEq, Prod.mk.injEq] at h
      obtain ⟨hs, _⟩ := h
      rw [← hs]
      exact wf_insert_new s n o p w t _ hw
  | some b =>
      rw [receive_present s n o p w t b hn hb] at h
      simp only [Except.ok.injEq, Prod.mk.injEq] at h
      obtain ⟨hs, _⟩ := h
      rw [← hs]
      refine wf_update_insert s b _ .inbound w _ t (lookupBean_mem s n b hb) ?_ ?_ ?_ hw
      · intro c
        by_cases hc : c.id = b.id <;> simp [hc]
      · intro c hc
        simp [hc]
      · intro c hc
        simp [hc]

/-- A successful roast consumption preserves well-formedness. -/
theorem wf_consume (s : Store) (n : String) (w : ℚ) (t : Nat) (s' : Store) (r : ℚ) (u : Bool)
    (hw : Wf s) (h : consume s n w t = .ok (s', r, u)) : Wf s' := by
  cases hb : lookupBean s n with
  | none =>
      rw [consume_absent s n w t hb] at h
      cases h
  | some b =>
      rw [consume_present s n w t b hb] at h
      simp only [Except.ok.injEq, Prod.mk.injEq] at h
      obtain ⟨hs, _⟩ := h
      rw [← hs]
      refine wf_update_insert s b _ .roast (-w) _ t (lookupBean_mem s n b hb) ?_ ?_ ?_ hw
      · intro c
        by_cases hc : c.id = b.id <;> simp [hc]
      · intro c hc
        simp [hc, sub_eq_add_neg]
      · intro c hc
        simp [hc]

/-- A successful stocktake preserves well-formedness. -/
theorem wf_correct (s : Store) (n : String) (a : ℚ) (t : Nat) (s' : Store) (d : ℚ)
    (hw : Wf s) (h : correct s n a t = .ok (s', d)) : Wf s' := by
  cases hb : lookupBean s n with
  | none =>
      rw [correct_absent s n a t hb] at h
      cases h
  | some b =>
      by_cases ha : a = b.stockWeight
      · rw [correct_noop s n a t b hb ha] at h
        simp only [Except.ok.injEq, Prod.mk.injEq] at h
        obtain ⟨hs, _⟩ := h
        rw [← hs]
        exact hw
      · rw [correct_present s n a t b hb ha] at h
        simp only [Except.ok.injEq, Prod.mk.injEq] at h
        obtain ⟨hs, _⟩ := h
        rw [← hs]
        refine wf_update_insert s b _ .stocktake (a - b.stockWeight) _ t
          (lookupBean_mem s n b hb) ?_ ?_ ?_ hw
        · intro c
          by_cases hc : c.id = b.id <;> simp [hc]
        · intro c hc
          simp [hc]
        · intro c hc
          simp [hc]

/-- Every reachable store is well-formed; in particular every bean's stock
equals the sum of its transactions' deltas. -/
theorem reachable_wf (s : Store) (h : Reachable s) : Wf s := by
  induction h with
  | empty => exact wf_empty
  | receiveStep s n o p w t s' r _ _ heq ih => exact wf_receive s n o p w t s' r ih heq
  | consumeStep s n w t s' r u _ _ heq ih => exact wf_consume s n w t s' r u ih heq
  | correctStep s n a t s' d _ _ heq ih => exact wf_correct s n a t s' d ih heq

/-! ### Concrete stores used to exercise the theorems -/

/-- The store after `receive Store.empty "X" "E" "W" 3 0`. -/
def demoS1 : Store :=
  { beans := [⟨1, "X", "E", "W", 3, 0⟩],
    txns := [⟨1, 1, .inbound, 3, "新豆建檔", 0⟩],
    nextBeanId := 2, nextTxnId := 2 }

/-- The store after additionally `consume demoS1 "X" 5 1`: stock −2, underflow. -/
def demoS2 : Store :=
  { beans := [⟨1, "X", "E", "W", -2, 1⟩],
    txns := [⟨1, 1, .inbound, 3, "新豆建檔", 0⟩, ⟨2, 1, .roast, -5, "烘豆消耗", 1⟩],
    nextBeanId := 2, nextTxnId := 3 }

/-- Receiving 3 kg of the new bean "X" on the empty store yields `demoS1`. -/
theorem demo_receive : receive Store.empty "X" "E" "W" 3 0 = .ok (demoS1, 3) := by
  rw [receive_absent Store.empty "X" "E" "W" 3 0 (by decide)
    (by simp [lookupBean, Store.empty])]
  simp [Store.empty, demoS1]

/-- Roasting 5 kg of "X" out of 3 kg in stock yields `demoS2`, stock −2 and
the underflow warning. -/
theorem demo_consume : consume demoS1 "X" 5 1 = .ok (demoS2, -2, true) := by
  rw [consume_present demoS1 "X" 5 1 ⟨1, "X", "E", "W", 3, 0⟩ (by decide)]
  simp only [demoS1, demoS2, Except.ok.injEq, Prod.mk.injEq, Store.mk.injEq,
    List.map_cons, List.map_nil, decide_eq_true_eq]
  norm_num

/-- `demoS1` is reachable. -/
theorem demoS1_reach : Reachable demoS1 :=
  .receiveStep Store.empty "X" "E" "W" 3 0 demoS1 3 .empty (by norm_num) demo_receive

/-- `demoS2` is reachable. -/
theorem demoS2_reach : Reachable demoS2 :=
  .consumeStep demoS1 "X" 5 1 demoS2 (-2) true demoS1_reach (by norm_num) demo_consume

/-- The store after a zero-weight receipt of the new bean "Z". -/
def zeroS1 : Store :=
  { beans := [⟨1, "Z", "", "", 0, 0⟩],
    txns := [⟨1, 1, .inbound, 0, "新豆建檔", 0⟩],
    nextBeanId := 2, nextTxnId := 2 }

/-- The store after additionally a zero-weight roast of "Z". -/
def zeroS2 : Store :=
  { beans := [⟨1, "Z", "", "", 0, 1⟩],
    txns := [⟨1, 1, .inbound, 0, "新豆建檔", 0⟩, ⟨2, 1, .roast, 0, "烘豆消耗", 1⟩],
    nextBeanId := 2, nextTxnId := 3 }

/-- A zero-weight receipt succeeds and logs a zero-delta INBOUND
transaction. -/
theorem zero_receive : receive Store.empty "Z" "" "" 0 0 = .ok (zeroS1, 0) := by
  rw [receive_absent Store.empty "Z" "" "" 0 0 (by decide)
    (by simp [lookupBean, Store.empty])]
  simp [Store.empty, zeroS1]

/-- A zero-weight roast succeeds, logs a zero-delta ROAST transaction and
raises no underflow warning. -/
theorem zero_consume : consume zeroS1 "Z" 0 1 = .ok (zeroS2, 0, false) := by
  rw [consume_present zeroS1 "Z" 0 1 ⟨1, "Z", "", "", 0, 0⟩ (by decide)]
  simp only [zeroS1, zeroS2, Except.ok.injEq, Prod.mk.injEq, Store.mk.injEq,
    List.map_cons, List.map_nil, decide_eq_true_eq]
  norm_num

/-- `zeroS2` is reachable. -/
theorem zeroS2_reach : Reachable zeroS2 :=
  .consumeStep zeroS1 "Z" 0 1 zeroS2 0 false
    (.receiveStep Store.empty "Z" "" "" 0 0 zeroS1 0 .empty le_rfl zero_receive)
    le_rfl zero_consume

/-! ### Claim theorems -/

/-- C1: for every Bean and every sequence of receive/consume/correct
operations starting from the empty store, after each operation the Bean's
stockWeight equals the sum of amountChange over all Transactions referencing
it, the Bean's initial creation itself being recorded as an INBOUND
transaction. -/
theorem stock_equals_ledger_sum (s : Store) (h : Reachable s) :
    ∀ b ∈ s.beans, b.stockWeight = beanTxnSum s b.id :=
  (reachable_wf s h).stockSum

/-- Witness for C1: the invariant instantiated on the concrete reachable
store `demoS2` (receive 3 kg, consume 5 kg). -/
theorem stock_equals_ledger_sum_witness :
    (Bean.mk 1 "X" "E" "W" (-2) 1).stockWeight
      = beanTxnSum demoS2 (Bean.mk 1 "X" "E" "W" (-2) 1).id :=
  stock_equals_ledger_sum demoS2 demoS2_reach (Bean.mk 1 "X" "E" "W" (-2) 1) (by decide)

/-- The write list the roast branch computes on `demoS1` for a 5 kg roast
of "X" (its new stock −2 already normalised). -/
def leakedWs : List Write :=
  [Write.updateBeanStock 1 (-2) 1, Write.insertTxn .roast 1 (-5) "烘豆消耗" 1]

/-- The shared connection after that branch's transaction insert (position 1,
after the bean update) raises: the bean update stays pending, nothing was
committed, no rollback was issued. -/
def leakedConn : Conn := runBranch (Conn.clean demoS1) leakedWs (some 1)

/-- The connection after the next, fault-free operation — receiving 4 kg of
a new bean "Y" — whose `conn.commit()` commits everything pending. -/
def nextConn : Conn :=
  runBranch leakedConn
    [Write.insertBean "Y" "F" "N" 4 2, Write.insertTxn .inbound 2 4 "新豆建檔" 2] none

/-- C2: the claimed atomicity fails on the code.  On a store holding 3 kg of
"X", the roast branch's transaction insert failing after the bean update
leaves the update pending with no rollback: reads on the shared connection
immediately see stock −2 with no ROAST transaction recorded, and the next
operation's commit (here a receipt of a new bean "Y", itself a genuine
`receiveWrites` run on the same connection) makes the partial update
durable — the bean update becomes durably visible without its transaction
insert, and the bean's stockWeight does not remain unchanged. -/
theorem fault_leaks_partial_update :
    consumeWrites demoS1 "X" 5 1 = .ok (leakedWs, -2, true)
    ∧ getStock demoS1 "X" = some 3
    ∧ getStock leakedConn.pending "X" = some (-2)
    ∧ leakedConn.pending.txns = demoS1.txns
    ∧ leakedConn.durable = demoS1
    ∧ receiveWrites leakedConn.pending "Y" "F" "N" 4 2 =
        .ok ([Write.insertBean "Y" "F" "N" 4 2,
              Write.insertTxn .inbound 2 4 "新豆建檔" 2], 4)
    ∧ getStock nextConn.durable "X" = some (-2)
    ∧ nextConn.durable.txns.filter (fun tx => tx.actionType = ActionType.roast) = [] := by
  have hws : consumeWrites demoS1 "X" 5 1 = .ok (leakedWs, -2, true) := by
    simp only [consumeWrites, leakedWs, demoS1, lookupBean, List.find?, Except.ok.injEq,
      Prod.mk.injEq, decide_eq_true_eq]
    norm_num
  have hrw : receiveWrites leakedConn.pending "Y" "F" "N" 4 2 =
      .ok ([Write.insertBean "Y" "F" "N" 4 2,
            Write.insertTxn .inbound 2 4 "新豆建檔" 2], 4) := by
    simp [receiveWrites, lookupBean, leakedConn, runBranch, leakedWs, demoS1,
      Conn.clean, applyWrites, applyWrite, List.find?]
  exact ⟨hws, by decide, by decide, by decide, by decide, hrw, by decide, by decide⟩

/-- C3: receiving an absent, non-empty name with weight ≥ 0 creates exactly
one Bean with stockWeight = weight and the given origin and process, and
appends exactly one INBOUND transaction with amountChange = weight. -/
theorem receive_creates_bean (s : Store) (n o p : String) (w : ℚ) (t : Nat)
    (hn : n ≠ "") (hw : 0 ≤ w) (hb : lookupBean s n = none) :
    receive s n o p w t = .ok
      ({ beans := s.beans ++ [⟨s.nextBeanId, n, o, p, w, t⟩],
         txns := s.txns ++ [⟨s.nextTxnId, s.nextBeanId, .inbound, w, "新豆建檔", t⟩],
         nextBeanId := s.nextBeanId + 1, nextTxnId := s.nextTxnId + 1 }, w) :=
  receive_absent s n o p w t hn hb

/-- Witness for C3: the Yirgacheffe receipt on the empty store. -/
theorem receive_creates_bean_witness :
    receive Store.empty "Yirgacheffe" "Ethiopia" "Washed" 10 0 = .ok
      ({ beans := [⟨1, "Yirgacheffe", "Ethiopia", "Washed", 10, 0⟩],
         txns := [⟨1, 1, .inbound, 10, "新豆建檔", 0⟩],
         nextBeanId := 2, nextTxnId := 2 }, 10) := by
  have h := receive_creates_bean Store.empty "Yirgacheffe" "Ethiopia" "Washed" 10 0
    (by decide) (by norm_num) (by simp [lookupBean, Store.empty])
  simpa [Store.empty] using h

/-- C4: receiving a present name adds the weight to the existing Bean's
stock, overwrites its origin and process with the newly supplied values
(even empty ones) and appends a fresh INBOUND transaction — so repeated
receipts accumulate stock and ledger entries rather than merging. -/
theorem receive_accumulates (s : Store) (n o p : String) (w : ℚ) (t : Nat) (b : Bean)
    (hn : n ≠ "") (hb : lookupBean s n = some b) :
    receive s n o p w t = .ok
      ({ beans := s.beans.map fun c =>
           if c.id = b.id then
             { c with stockWeight := b.stockWeight + w, origin := o, process := p,
                      updatedAt := t }
           else c,
         txns := s.txns ++ [⟨s.nextTxnId, b.id, .inbound, w, "進豆入庫", t⟩],
         nextBeanId := s.nextBeanId, nextTxnId := s.nextTxnId + 1 },
       b.stockWeight + w) :=
  receive_present s n o p w t b hn hb

/-- Store after a first `receive _ "X" "A" "B" 5 0` on the empty store. -/
def accS1 : Store :=
  { beans := [⟨1, "X", "A", "B", 5, 0⟩],
    txns := [⟨1, 1, .inbound, 5, "新豆建檔", 0⟩],
    nextBeanId := 2, nextTxnId := 2 }

/-- Witness for C4: a second receipt of 5 kg of "X" (with blank metadata)
yields stock 10, two separate INBOUND transactions, and the blank
origin/process overwriting the old values. -/
theorem receive_accumulates_witness :
    receive accS1 "X" "" "" 5 1 = .ok
      ({ beans := [⟨1, "X", "", "", 10, 1⟩],
         txns := [⟨1, 1, .inbound, 5, "新豆建檔", 0⟩, ⟨2, 1, .inbound, 5, "進豆入庫", 1⟩],
         nextBeanId := 2, nextTxnId := 3 }, 10) := by
  have h := receive_accumulates accS1 "X" "" "" 5 1 ⟨1, "X", "A", "B", 5, 0⟩
    (by decide) (by decide)
  rw [h]
  simp only [accS1, Except.ok.injEq, Prod.mk.injEq, Store.mk.injEq, List.map_cons,
    List.map_nil]
  norm_num

/-- C5: consuming from an existing Bean subtracts the weight from its stock
and appends a ROAST transaction with amountChange = −weight; a negative
result is permitted — the call still succeeds and the underflow flag is
exactly the test "new stock < 0". -/
theorem consume_subtracts (s : Store) (n : String) (w : ℚ) (t : Nat) (b : Bean)
    (hw : 0 ≤ w) (hb : lookupBean s n = some b) :
    consume s n w t = .ok
      ({ beans := s.beans.map fun c =>
           if c.id = b.id then { c with stockWeight := b.stockWeight - w, updatedAt := t }
           else c,
         txns := s.txns ++ [⟨s.nextTxnId, b.id, .roast, -w, "烘豆消耗", t⟩],
         nextBeanId := s.nextBeanId, nextTxnId := s.nextTxnId + 1 },
       b.stockWeight - w, decide (b.stockWeight - w < 0)) :=
  consume_present s n w t b hb

/-- Witness for C5: receive 3 kg then consume 5 kg gives stock −2,
underflow = true and a ROAST transaction with amountChange = −5. -/
theorem consume_subtracts_witness :
    consume demoS1 "X" 5 1 = .ok (demoS2, -2, true) := by
  have h := consume_subtracts demoS1 "X" 5 1 ⟨1, "X", "E", "W", 3, 0⟩
    (by norm_num) (by decide)
  rw [h]
  simp only [demoS1, demoS2, Except.ok.injEq, Prod.mk.injEq, Store.mk.injEq,
    List.map_cons, List.map_nil, decide_eq_true_eq]
  norm_num

/-- C6: a stocktake on an existing Bean whose recorded stock differs from
the observed weight sets stockWeight to the observed weight, appends exactly
one STOCKTAKE transaction carrying the diff and a note describing old and
new values, and reports that diff. -/
theorem correct_records_diff (s : Store) (n : String) (a : ℚ) (t : Nat) (b : Bean)
    (ha : 0 ≤ a) (hne : a ≠ b.stockWeight) (hb : lookupBean s n = some b) :
    correct s n a t = .ok
      ({ beans := s.beans.map fun c =>
           if c.id = b.id then { c with stockWeight := a, updatedAt := t } else c,
         txns := s.txns ++
           [⟨s.nextTxnId, b.id, .stocktake, a - b.stockWeight,
             stocktakeNote b.stockWeight a, t⟩],
         nextBeanId := s.nextBeanId, nextTxnId := s.nextTxnId + 1 },
       a - b.stockWeight) :=
  correct_present s n a t b hb hne

/-- Store holding 7 kg of "X", used by the stocktake witnesses. -/
def corrS : Store :=
  { beans := [⟨1, "X", "E", "W", 7, 0⟩],
    txns := [⟨1, 1, .inbound, 7, "新豆建檔", 0⟩],
    nextBeanId := 2, nextTxnId := 2 }

/-- Witness for C6: correcting 7 kg down to 5 kg yields stock 5 and one
STOCKTAKE transaction with amountChange = −2. -/
theorem correct_records_diff_witness :
    correct corrS "X" 5 1 = .ok
      ({ beans := [⟨1, "X", "E", "W", 5, 1⟩],
         txns := [⟨1, 1, .inbound, 7, "新豆建檔", 0⟩,
                  ⟨2, 1, .stocktake, -2, stocktakeNote 7 5, 1⟩],
         nextBeanId := 2, nextTxnId := 3 }, -2) := by
  have h := correct_records_diff corrS "X" 5 1 ⟨1, "X", "E", "W", 7, 0⟩
    (by norm_num) (by norm_num) (by decide)
  rw [h]
  simp only [corrS, Except.ok.injEq, Prod.mk.injEq, Store.mk.injEq, List.map_cons,
    List.map_nil]
  norm_num

/-- C7: a stocktake whose observed weight equals the recorded stock writes
no transaction, changes no timestamp, leaves the entire store unchanged and
reports diff = 0. -/
theorem stocktake_noop (s : Store) (n : String) (t : Nat) (b : Bean)
    (hb : lookupBean s n = some b) :
    correct s n b.stockWeight t = .ok (s, 0) ∧
    correctWrites s n b.stockWeight t = .ok ([], 0) := by
  refine ⟨correct_noop s n b.stockWeight t b hb rfl, ?_⟩
  simp [correctWrites, hb]

/-- Witness for C7: correcting "X" to its recorded 7 kg changes nothing. -/
theorem stocktake_noop_witness :
    correct corrS "X" 7 1 = .ok (corrS, 0) ∧
    correctWrites corrS "X" 7 1 = .ok ([], 0) :=
  stocktake_noop corrS "X" 1 ⟨1, "X", "E", "W", 7, 0⟩ (by decide)

/-- C8: consuming or correcting a name that references no existing Bean
fails with NotFoundError before any write: no write is even issued, so both
tables are untouched. -/
theorem unknown_bean_rejected (s : Store) (n : String) (w a : ℚ) (t : Nat)
    (hb : lookupBean s n = none) :
    consume s n w t = .error .notFound ∧ correct s n a t = .error .notFound ∧
    consumeWrites s n w t = .error .notFound ∧
    correctWrites s n a t = .error .notFound := by
  exact ⟨consume_absent s n w t hb, correct_absent s n a t hb,
    by simp [consumeWrites, hb], by simp [correctWrites, hb]⟩

/-- Witness for C8: consuming or correcting "NoSuchBean" on the empty store
fails with NotFoundError and issues no write. -/
theorem unknown_bean_rejected_witness :
    consume Store.empty "NoSuchBean" 1 0 = .error .notFound ∧
    correct Store.empty "NoSuchBean" 1 0 = .error .notFound ∧
    consumeWrites Store.empty "NoSuchBean" 1 0 = .error .notFound ∧
    correctWrites Store.empty "NoSuchBean" 1 0 = .error .notFound :=
  unknown_bean_rejected Store.empty "NoSuchBean" 1 1 0 (by decide)

/-- C9 counterexample: `zeroS2`, reached by a zero-weight receipt followed
by a zero-weight roast (both permitted by the `min_value=0.0` inputs),
contains an INBOUND transaction whose amountChange is not positive and a
ROAST transaction whose amountChange is not negative. -/
theorem txn_sign_strict_fails :
    Reachable zeroS2 ∧
    (⟨1, 1, .inbound, 0, "新豆建檔", 0⟩ : Txn) ∈ zeroS2.txns ∧
    (⟨1, 1, ActionType.inbound, 0, "新豆建檔", 0⟩ : Txn).actionType = .inbound ∧
    ¬(0 < (⟨1, 1, ActionType.inbound, 0, "新豆建檔", 0⟩ : Txn).amountChange) ∧
    (⟨2, 1, .roast, 0, "烘豆消耗", 1⟩ : Txn) ∈ zeroS2.txns ∧
    (⟨2, 1, ActionType.roast, 0, "烘豆消耗", 1⟩ : Txn).actionType = .roast ∧
    ¬((⟨2, 1, ActionType.roast, 0, "烘豆消耗", 1⟩ : Txn).amountChange < 0) :=
  ⟨zeroS2_reach, by decide, rfl, by norm_num, by decide, rfl, by norm_num⟩

/-- C9 (amended): in every store state reachable by receive/consume/correct,
every INBOUND transaction has a nonnegative amountChange and every ROAST
transaction a nonpositive one — zero-weight receipts and roasts are valid
and log zero-delta entries. -/
theorem txn_sign_bounds (s : Store) (h : Reachable s) :
    ∀ tx ∈ s.txns, (tx.actionType = .inbound → 0 ≤ tx.amountChange) ∧
      (tx.actionType = .roast → tx.amountChange ≤ 0) := by
  induction h with
  | empty =>
      intro tx htx
      simp [Store.empty] at htx
  | receiveStep s n o p w t s' r _ hwge heq ih =>
      by_cases hn : n = ""
      · subst hn
        rw [receive_blank] at heq
        cases heq
      · cases hbk : lookupBean s n with
        | none =>
            rw [receive_absent s n o p w t hn hbk] at heq
            simp only [Except.ok.injEq, Prod.mk.injEq] at heq
            obtain ⟨hs, _⟩ := heq
            rw [← hs]
            intro tx htx
            rcases List.mem_append.mp htx with hm | hm
            · exact ih tx hm
            · simp only [List.mem_singleton] at hm
              subst hm
              exact And.intro (fun _ => hwge) (fun hx => nomatch hx)
        | some b =>
            rw [receive_present s n o p w t b hn hbk] at heq
            simp only [Except.ok.injEq, Prod.mk.injEq] at heq
            obtain ⟨hs, _⟩ := heq
            rw [← hs]
            intro tx htx
            rcases List.mem_append.mp htx with hm | hm
            · exact ih tx hm
            · simp only [List.mem_singleton] at hm
              subst hm
              exact And.intro (fun _ => hwge) (fun hx => nomatch hx)
  | consumeStep s n w t s' r u _ hwge heq ih =>
      cases hbk : lookupBean s n with
      | none =>
          rw [consume_absent s n w t hbk] at heq
          cases heq
      | some b =>
          rw [consume_present s n w t b hbk] at heq
          simp only [Except.ok.injEq, Prod.mk.injEq] at heq
          obtain ⟨hs, _⟩ := heq
          rw [← hs]
          intro tx htx
          rcases List.mem_append.mp htx with hm | hm
          · exact ih tx hm
          · simp only [List.mem_singleton] at hm
            subst hm
            exact And.intro (fun hx => nomatch hx) (fun _ => neg_nonpos.mpr hwge)
  | correctStep s n a t s' d _ hwge heq ih =>
      cases hbk : lookupBean s n with
      | none =>
          rw [correct_absent s n a t hbk] at heq
          cases heq
      | some b =>
          by_cases ha : a = b.stockWeight
          · rw [correct_noop s n a t b hbk ha] at heq
            simp only [Except.ok.injEq, Prod.mk.injEq] at heq
            obtain ⟨hs, _⟩ := heq
            rw [← hs]
            exact ih
          · rw [correct_present s n a t b hbk ha] at heq
            simp only [Except.ok.injEq, Prod.mk.injEq] at heq
            obtain ⟨hs, _⟩ := heq
            rw [← hs]
            intro tx htx
            rcases List.mem_append.mp htx with hm | hm
            · exact ih tx hm
            · simp only [List.mem_singleton] at hm
              subst hm
              exact And.intro (fun hx => nomatch hx) (fun hx => nomatch hx)

/-- Witness for the amended C9: the INBOUND entry of the reachable store
`demoS2` has nonnegative delta and its ROAST entry nonpositive delta. -/
theorem txn_sign_bounds_witness :
    (((⟨1, 1, .inbound, 3, "新豆建檔", 0⟩ : Txn).actionType = .inbound →
        0 ≤ (⟨1, 1, ActionType.inbound, 3, "新豆建檔", 0⟩ : Txn).amountChange) ∧
      ((⟨1, 1, ActionType.inbound, 3, "新豆建檔", 0⟩ : Txn).actionType = .roast →
        (⟨1, 1, ActionType.inbound, 3, "新豆建檔", 0⟩ : Txn).amountChange ≤ 0)) ∧
    (((⟨2, 1, .roast, -5, "烘豆消耗", 1⟩ : Txn).actionType = .inbound →
        0 ≤ (⟨2, 1, ActionType.roast, -5, "烘豆消耗", 1⟩ : Txn).amountChange) ∧
      ((⟨2, 1, ActionType.roast, -5, "烘豆消耗", 1⟩ : Txn).actionType = .roast →
        (⟨2, 1, ActionType.roast, -5, "烘豆消耗", 1⟩ : Txn).amountChange ≤ 0)) :=
  ⟨txn_sign_bounds demoS2 demoS2_reach ⟨1, 1, .inbound, 3, "新豆建檔", 0⟩ (by decide),
   txn_sign_bounds demoS2 demoS2_reach ⟨2, 1, .roast, -5, "烘豆消耗", 1⟩ (by decide)⟩

/-- A bean fixed by the row-update function stays in the mapped table. -/
theorem mem_map_of_fix (l : List Bean) (f : Bean → Bean) (b : Bean)
    (hb : b ∈ l) (hfix : f b = b) : b ∈ l.map f := by
  rw [← hfix]
  exact List.mem_map_of_mem f hb

/-- C10: consume and correct never modify the affected Bean's name, origin
or process, and every mutating operation leaves all Beans other than the
named target, and all previously recorded Transactions, unchanged. -/
theorem mutating_ops_frame (s : Store) (n o p : String) (w aw : ℚ) (t : Nat)
    (hids : (s.beans.map Bean.id).Nodup) :
    (∀ s' r, receive s n o p w t = .ok (s', r) →
        s.txns <+: s'.txns ∧ ∀ b ∈ s.beans, b.name ≠ n → b ∈ s'.beans)
    ∧ (∀ s' r u, consume s n w t = .ok (s', r, u) →
        s.txns <+: s'.txns ∧ (∀ b ∈ s.beans, b.name ≠ n → b ∈ s'.beans) ∧
        ∀ b ∈ s.beans, ∃ b' ∈ s'.beans,
          b'.name = b.name ∧ b'.origin = b.origin ∧ b'.process = b.process)
    ∧ (∀ s' d, correct s n aw t = .ok (s', d) →
        s.txns <+: s'.txns ∧ (∀ b ∈ s.beans, b.name ≠ n → b ∈ s'.beans) ∧
        ∀ b ∈ s.beans, ∃ b' ∈ s'.beans,
          b'.name = b.name ∧ b'.origin = b.origin ∧ b'.process = b.process) := by
  refine ⟨?_, ?_, ?_⟩
  · intro s' r heq
    by_cases hn : n = ""
    · subst hn
      rw [receive_blank] at heq
      cases heq
    cases hbk : lookupBean s n with
    | none =>
        rw [receive_absent s n o p w t hn hbk] at heq
        simp only [Except.ok.injEq, Prod.mk.injEq] at heq
        obtain ⟨hs, _⟩ := heq
        rw [← hs]
        exact ⟨List.prefix_append _ _, fun b hb _ => List.mem_append.mpr (Or.inl hb)⟩
    | some b0 =>
        rw [receive_present s n o p w t b0 hn hbk] at heq
        simp only [Except.ok.injEq, Prod.mk.injEq] at heq
        obtain ⟨hs, _⟩ := heq
        rw [← hs]
        have hb0mem := lookupBean_mem s n b0 hbk
        have hb0name := lookupBean_name s n b0 hbk
        refine ⟨List.prefix_append _ _, ?_⟩
        intro b hb hbn
        have hidne : ¬b.id = b0.id := fun hid =>
          hbn (by rw [List.inj_on_of_nodup_map hids hb hb0mem hid]; exact hb0name)
        exact mem_map_of_fix _ _ b hb (by simp [hidne])
  · intro s' r u heq
    cases hbk : lookupBean s n with
    | none =>
        rw [consume_absent s n w t hbk] at heq
        cases heq
    | some b0 =>
        rw [consume_present s n w t b0 hbk] at heq
        simp only [Except.ok.injEq, Prod.mk.injEq] at heq
        obtain ⟨hs, _⟩ := heq
        rw [← hs]
        have hb0mem := lookupBean_mem s n b0 hbk
        have hb0name := lookupBean_name s n b0 hbk
        refine ⟨List.prefix_append _ _, ?_, ?_⟩
        · intro b hb hbn
          have hidne : ¬b.id = b0.id := fun hid =>
            hbn (by rw [List.inj_on_of_nodup_map hids hb hb0mem hid]; exact hb0name)
          exact mem_map_of_fix _ _ b hb (by simp [hidne])
        · intro b hb
          refine ⟨_, List.mem_map_of_mem _ hb, ?_⟩
          by_cases hcid : b.id = b0.id <;> simp [hcid]
  · intro s' d heq
    cases hbk : lookupBean s n with
    | none =>
        rw [correct_absent s n aw t hbk] at heq
        cases heq
    | some b0 =>
        by_cases ha : aw = b0.stockWeight
        · rw [correct_noop s n aw t b0 hbk ha] at heq
          simp only [Except.ok.injEq, Prod.mk.injEq] at heq
          obtain ⟨hs, _⟩ := heq
          rw [← hs]
          exact ⟨List.prefix_refl _, fun b hb _ => hb,
            fun b hb => ⟨b, hb, rfl, rfl, rfl⟩⟩
        · rw [correct_present s n aw t b0 hbk ha] at heq
          simp only [Except.ok.injEq, Prod.mk.injEq] at heq
          obtain ⟨hs, _⟩ := heq
          rw [← hs]
          have hb0mem := lookupBean_mem s n b0 hbk
          have hb0name := lookupBean_name s n b0 hbk
          refine ⟨List.prefix_append _ _, ?_, ?_⟩
          · intro b hb hbn
            have hidne : ¬b.id = b0.id := fun hid =>
              hbn (by rw [List.inj_on_of_nodup_map hids hb hb0mem hid]; exact hb0name)
            exact mem_map_of_fix _ _ b hb (by simp [hidne])
          · intro b hb
            refine ⟨_, List.mem_map_of_mem _ hb, ?_⟩
            by_cases hcid : b.id = b0.id <;> simp [hcid]

/-- A two-bean store: 3 kg of "X" and 4 kg of "Y". -/
def twoS : Store :=
  { beans := [⟨1, "X", "E", "W", 3, 0⟩, ⟨2, "Y", "F", "N", 4, 0⟩],
    txns := [⟨1, 1, .inbound, 3, "新豆建檔", 0⟩, ⟨2, 2, .inbound, 4, "新豆建檔", 0⟩],
    nextBeanId := 3, nextTxnId := 3 }

/-- `twoS` after `consume twoS "X" 5 1`: "Y" untouched, ledger extended. -/
def twoSAfter : Store :=
  { beans := [⟨1, "X", "E", "W", -2, 1⟩, ⟨2, "Y", "F", "N", 4, 0⟩],
    txns := [⟨1, 1, .inbound, 3, "新豆建檔", 0⟩, ⟨2, 2, .inbound, 4, "新豆建檔", 0⟩,
             ⟨3, 1, .roast, -5, "烘豆消耗", 1⟩],
    nextBeanId := 3, nextTxnId := 4 }

/-- Witness for C10: consuming "X" in the two-bean store keeps the old
ledger as a prefix and leaves the other bean "Y" untouched. -/
theorem mutating_ops_frame_witness :
    twoS.txns <+: twoSAfter.txns ∧ (⟨2, "Y", "F", "N", 4, 0⟩ : Bean) ∈ twoSAfter.beans := by
  have hcons : consume twoS "X" 5 1 = .ok (twoSAfter, -2, true) := by
    rw [consume_present twoS "X" 5 1 ⟨1, "X", "E", "W", 3, 0⟩ (by decide)]
    simp only [twoS, twoSAfter, Except.ok.injEq, Prod.mk.injEq, Store.mk.injEq,
      List.map_cons, List.map_nil, decide_eq_true_eq]
    norm_num
  have h := (mutating_ops_frame twoS "X" "" "" 5 0 1 (by decide)).2.1 twoSAfter (-2) true hcons
  exact ⟨h.1, h.2.1 ⟨2, "Y", "F", "N", 4, 0⟩ (by decide) (by decide)⟩

end CoffeeStock
